import Mathlib

/-!
Verification development for the NBA player-points prediction pipeline
(`streamlit_app.py`, `1streamlit_app.py`).

The Python source is shallowly embedded: pandas DataFrames become assoc
lists of named columns over `Option ℚ` cells (`none` models a missing
value / NaN), fallible network calls become explicit outcome oracles, and
exceptions become `Except`.
-/

namespace NBA

/-! ## Game-log fetching (`fetch_player_gamelog`, `get_player_data`) -/

/-- Outcome of one raw network call
`playergamelog.PlayerGameLog(...).get_data_frames()[0]`:
either rows are delivered, or an exception is raised.  `raiseTransient`
stands for `ReadTimeout` / `ConnectionError`, `raiseOther` for any other
exception.  `α` is the row type (rows are never inspected by the fetch
layer). -/
inductive RawOutcome (α : Type) where
  | frames (rows : List α)
  | raiseTransient
  | raiseOther
deriving DecidableEq, Repr

/-- A Python exception class, as far as `get_player_data`'s
`except (ReadTimeout, ConnectionError)` clause distinguishes them. -/
inductive PyErr where
  | transient
  | other
deriving DecidableEq, Repr

/-- `fetch_player_gamelog(player_id, season)`: the whole body is wrapped in
`try ... except Exception: return None`, so every exception from the raw
call is swallowed and the function returns the data frame or `None` —
it never raises. -/
def fetch_player_gamelog {α : Type} (raw : RawOutcome α) : Option (List α) :=
  match raw with
  | .frames rows => some rows
  | .raiseTransient => none
  | .raiseOther => none

/-- The environment a `get_player_data` call runs against: the result of
`get_player_id(player_name)` and, for every `(season, attempt)` pair, the
outcome of the raw network call made on that attempt. -/
structure FetchEnv (α : Type) where
  playerId : Option Nat
  raw : String → Nat → RawOutcome α

/-- `seasons = [SEASON_CURRENT, SEASON_PREVIOUS]` in `get_player_data`. -/
def SEASONS : List String := ["2024-25", "2023-24"]

/-- Exit status of `for attempt in range(max_retries): ...` for one season
in `get_player_data`. -/
inductive SeasonStep (α : Type) where
  | gotSome (rows : List α)  -- broke out of the loop, appended a frame
  | gotNone                  -- broke out of the loop, `gamelog` was None
  | loopEnded                -- `range(max_retries)` exhausted without break
  | playerFail               -- executed `return None` (retries exhausted)
  | raised (e : PyErr)       -- an exception escaped the `except` clause
deriving DecidableEq, Repr

/-- One season's retry loop in `get_player_data`, lines 101–112 of
`streamlit_app.py`.  `fetch a` is the result of evaluating
`fetch_player_gamelog(player_id, season)` on attempt `a` (`.error` if that
expression raised).  Returns the exit status, the number of attempts made,
and the number of `time.sleep(2)` backoff calls executed.  `remaining` is
the number of loop iterations left (`maxRetries - attempt`), used as fuel. -/
def seasonGo {α : Type} (fetch : Nat → Except PyErr (Option (List α)))
    (maxRetries : Nat) : Nat → Nat → SeasonStep α × Nat × Nat
  | _, 0 => (.loopEnded, 0, 0)
  | attempt, remaining + 1 =>
    match fetch attempt with
    | .ok (some rows) => (.gotSome rows, 1, 0)
    | .ok none => (.gotNone, 1, 0)
    | .error .transient =>
      if attempt < maxRetries - 1 then
        let r := seasonGo fetch maxRetries (attempt + 1) remaining
        (r.1, r.2.1 + 1, r.2.2 + 1)
      else
        (.playerFail, 1, 0)
    | .error .other => (.raised .other, 1, 0)

/-- The per-attempt result of `fetch_player_gamelog(player_id, season)` as
seen inside `get_player_data`'s `try`: since `fetch_player_gamelog`
swallows every exception, this is always `.ok`. -/
def fetchAttempt {α : Type} (env : FetchEnv α) (season : String) (attempt : Nat) :
    Except PyErr (Option (List α)) :=
  .ok (fetch_player_gamelog (env.raw season attempt))

/-- The season loop of `get_player_data`: iterates over the requested
seasons, accumulating the frames appended to `gamelogs`; `playerFail`
models the early `return None`, `raised` an uncaught exception. -/
def seasonsLoop {α : Type} (fetch : String → Nat → Except PyErr (Option (List α)))
    (maxRetries : Nat) : List String → List (List α) → Except PyErr (Option (List α))
  | [], gamelogs => .ok (if gamelogs.isEmpty then none else some gamelogs.flatten)
  | s :: rest, gamelogs =>
    match (seasonGo (fetch s) maxRetries 0 maxRetries).1 with
    | .gotSome rows => seasonsLoop fetch maxRetries rest (gamelogs ++ [rows])
    | .gotNone => seasonsLoop fetch maxRetries rest gamelogs
    | .loopEnded => seasonsLoop fetch maxRetries rest gamelogs
    | .playerFail => .ok none
    | .raised e => .error e

/-- `get_player_data(player_name, max_retries)`, lines 91–116 of
`streamlit_app.py`.  `if not player_id` is Python truthiness: both `None`
and the integer `0` fail the check. -/
def get_player_data {α : Type} (env : FetchEnv α) (maxRetries : Nat) :
    Except PyErr (Option (List α)) :=
  match env.playerId with
  | none => .ok none
  | some pid =>
    if pid = 0 then .ok none
    else seasonsLoop (fetchAttempt env) maxRetries SEASONS []

/-- Identity resolution succeeded as far as `get_player_data`'s
`if not player_id:` test is concerned. -/
def idTruthy {α : Type} (env : FetchEnv α) : Prop :=
  ∃ pid, env.playerId = some pid ∧ pid ≠ 0

instance {α : Type} (env : FetchEnv α) : Decidable (idTruthy env) := by
  unfold idTruthy
  cases h : env.playerId with
  | none => exact .isFalse (by simp [h])
  | some pid => exact decidable_of_iff (pid ≠ 0) (by simp [h])

/-- The frames of the seasons whose (first-attempt) raw call delivered
data, in requested-season order. -/
def successRows {α : Type} (env : FetchEnv α) : List (List α) :=
  SEASONS.filterMap (fun s =>
    match env.raw s 0 with
    | .frames rows => some rows
    | _ => none)

/-- Number of times `fetch_player_gamelog` is evaluated for one season in a
`get_player_data` call with retry bound `maxRetries`. -/
def seasonAttempts {α : Type} (env : FetchEnv α) (season : String) (maxRetries : Nat) : Nat :=
  (seasonGo (fetchAttempt env season) maxRetries 0 maxRetries).2.1

/-- Number of `time.sleep(2)` backoff calls executed for one season in a
`get_player_data` call with retry bound `maxRetries`. -/
def seasonSleeps {α : Type} (env : FetchEnv α) (season : String) (maxRetries : Nat) : Nat :=
  (seasonGo (fetchAttempt env season) maxRetries 0 maxRetries).2.2

/-- An execution environment in which the raw network call raises
`ReadTimeout` on every attempt of every season: the claimed retry scenario. -/
def envAllTransient : FetchEnv Nat :=
  { playerId := some 1, raw := fun _ _ => .raiseTransient }

/-! ## Roster fan-out (`fetch_all_player_data`) -/

/-- Handling of one completed future in `fetch_all_player_data`, lines
123–132 of `streamlit_app.py`: `result player` is what `future.result()`
yields for that player (in this program, `get_player_data(player)`; an
`.error` models a raised exception).  The mapping gains the player exactly
when the result is a non-`None`, non-empty frame; every other outcome is
reported and skipped. -/
def rosterStep {α : Type} (result : String → Except PyErr (Option (List α)))
    (acc : List (String × List α)) (player : String) : List (String × List α) :=
  match result player with
  | .ok (some rows) => if rows.isEmpty then acc else acc ++ [(player, rows)]
  | .ok none => acc
  | .error _ => acc

/-- `fetch_all_player_data(roster)`, lines 118–133 of `streamlit_app.py`:
futures are collected with `as_completed`, i.e. in some completion order
`order` (a permutation of the roster); each completed result is folded into
the `player_data` mapping. -/
def fetch_all_player_data {α : Type} (result : String → Except PyErr (Option (List α)))
    (order : List String) : List (String × List α) :=
  order.foldl (rosterStep result) []

/-- A concrete batch result function: player "A" yields one row, "B"'s
future raises, "C" yields `None`. -/
def wRes : String → Except PyErr (Option (List Nat)) :=
  fun p => if p = "A" then .ok (some [1]) else if p = "B" then .error .other else .ok none

/-! ## DataFrames (`pandas`) -/

/-- A DataFrame column: one cell per row, `none` modelling a missing value
(NaN). -/
abbrev Col := List (Option ℚ)

/-- A DataFrame: named columns in order, all of equal length. -/
abbrev Table := List (String × Col)

/-- Column lookup `df[name]` (assumes the column exists, as pandas would
raise `KeyError` otherwise; absent columns default to `[]`). -/
def getCol (t : Table) (name : String) : Col :=
  ((t.find? fun c => c.1 == name).map Prod.snd).getD []

/-- Column assignment `df[name] = v`: replaces the column in place when
the name exists, otherwise appends it as the new last column. -/
def setCol (t : Table) (name : String) (v : Col) : Table :=
  if t.any (fun c => c.1 == name) then
    t.map (fun c => if c.1 == name then (name, v) else c)
  else t ++ [(name, v)]

/-- Number of rows of a table (length of its first column). -/
def nRows (t : Table) : Nat :=
  (t.head?.map (fun c => c.2.length)).getD 0

/-- All columns have the row count: the DataFrame is rectangular. -/
def wfTable (t : Table) : Prop :=
  ∀ c ∈ t, c.2.length = nRows t

instance (t : Table) : Decidable (wfTable t) := by
  unfold wfTable
  infer_instance

/-- No cell of the table is missing (NaN). -/
def noMissing (t : Table) : Prop :=
  ∀ c ∈ t, ∀ x ∈ c.2, x ≠ none

instance (t : Table) : Decidable (noMissing t) := by
  unfold noMissing
  infer_instance

/-- The trailing window `pandas` uses at row `i` for `rolling(window=w)`:
the last `min (i+1) w` entries among rows `0..i`. -/
def windowAt (w : Nat) (xs : Col) (i : Nat) : Col :=
  (xs.take (i + 1)).drop (i + 1 - w)

/-- `series.rolling(window=w, min_periods=1).mean()`: at each row, the mean
of the non-missing values in the trailing window, or NaN when the window
holds fewer than `min_periods = 1` non-missing values. -/
def rollingMean (w : Nat) (xs : Col) : Col :=
  (List.range xs.length).map (fun i =>
    let vals := (windowAt w xs i).filterMap id
    if vals.length = 0 then none else some (vals.sum / (vals.length : ℚ)))

/-- Python membership test `sub in s` on strings: `chunkLeads n h` is true
when `n` is an initial run of `h`, `chunkInside` scans every tail. -/
def chunkLeads : List Char → List Char → Bool
  | [], _ => true
  | _ :: _, [] => false
  | a :: as, b :: bs => a == b && chunkLeads as bs

/-- See `chunkLeads`. -/
def chunkInside (needle : List Char) : List Char → Bool
  | [] => chunkLeads needle []
  | b :: bs => chunkLeads needle (b :: bs) || chunkInside needle bs

/-- Python `sub in s` for strings. -/
def pyIn (sub s : String) : Bool := chunkInside sub.data s.data

/-- `df.dropna()`: keep exactly the rows in which no column holds a
missing value. -/
def rowKept (t : Table) (i : Nat) : Bool :=
  t.all (fun c => (c.2.getD i none).isSome)

/-- See `rowKept`. -/
def dropna (t : Table) : Table :=
  t.map (fun c =>
    (c.1, ((List.range (nRows t)).filter (rowKept t)).filterMap (fun i => c.2.get? i)))

/-! ## Feature engineering (`preprocess_game_log`) -/

/-- The `features` list of `preprocess_game_log` (16 columns). -/
def features : List String :=
  ["MIN", "FGM", "FGA", "FG_PCT", "FG3M", "FG3A", "FG3_PCT",
   "FTM", "FTA", "FT_PCT", "OREB", "DREB", "REB", "AST", "STL", "BLK"]

/-- The `target` column of `preprocess_game_log`. -/
def target : String := "PTS"

/-- `rolling_windows = [3, 5, 10]`. -/
def rolling_windows : List Nat := [3, 5, 10]

/-- The derived column name `f'{feature}_rolling_{window}'`. -/
def rollingName (f : String) (w : Nat) : String :=
  f ++ "_rolling_" ++ toString w

/-- The double loop of `preprocess_game_log` (lines 147–149 of
`streamlit_app.py`): for every field (features and target) and window,
assign the rolling-mean column into the frame — mutating it in place. -/
def addRollingColumns (t : Table) : Table :=
  (features ++ [target]).foldl (fun acc f =>
    rolling_windows.foldl (fun acc2 w =>
      setCol acc2 (rollingName f w) (rollingMean w (getCol acc2 f))) acc) t

/-- The (field, window) pairs in the iteration order of the double loop. -/
def fieldWindowPairs : List (String × Nat) :=
  (features ++ [target]).flatMap (fun f => rolling_windows.map (fun w => (f, w)))

/-- The derived column names in creation order. -/
def rollingColNames : List String :=
  fieldWindowPairs.map (fun p => rollingName p.1 p.2)

/-- The columns the double loop appends, as a function of the original
frame (each rolling mean reads only the original base column). -/
def genCols (t : Table) (P : List (String × Nat)) : Table :=
  P.map (fun p => (rollingName p.1 p.2, rollingMean p.2 (getCol t p.1)))

/-- `preprocess_game_log(game_log)`, lines 135–154 of `streamlit_app.py`,
as state-passing: the first component is the returned frame (`None` for an
empty input), the second is the state of the caller's `game_log` object
after the call (the rolling-column assignments mutate it in place; only
`dropna` allocates a fresh frame).  The Python `game_log is None` guard is
outside this model — a `None` input is returned unchanged. -/
def preprocess_game_log (game_log : Table) : Option Table × Table :=
  if game_log.isEmpty || nRows game_log == 0 then (none, game_log)
  else (some (dropna (addRollingColumns game_log)), addRollingColumns game_log)

/-- `[col for col in processed_data.columns if '_rolling_' in col]`
(line 217 of `streamlit_app.py`). -/
def selectModelFeatures (t : Table) : List String :=
  (t.map Prod.fst).filter (fun c => pyIn "_rolling_" c)

/-- `X = processed_data[features]` (line 218 of `streamlit_app.py`). -/
def modelX (t : Table) : Table :=
  (selectModelFeatures t).map (fun f => (f, getCol t f))

/-! ## Report metrics (`main` of both apps) -/

/-- `series.sum()`: pandas sums the non-missing values (`skipna=True`). -/
def colSum (xs : Col) : ℚ :=
  (xs.filterMap id).sum

/-- Python/numpy float division as observable in the metrics: a zero
denominator yields a non-finite float (`inf`/`nan`, modelled `none`), never
the number 0 and never an exception. -/
def pyDiv (a b : ℚ) : Option ℚ :=
  if b = 0 then none else some (a / b)

/-- `'Offensive Rating': processed_data['FGM'].sum() / processed_data['FGA'].sum() * 100`
(line 245 of `streamlit_app.py`, unguarded). -/
def offRatingMain (t : Table) : Option ℚ :=
  (pyDiv (colSum (getCol t "FGM")) (colSum (getCol t "FGA"))).map (· * 100)

/-- `'Efficiency': processed_data['PTS'].sum() / processed_data['MIN'].sum() * 48`
(line 247 of `streamlit_app.py`, unguarded). -/
def efficiencyMain (t : Table) : Option ℚ :=
  (pyDiv (colSum (getCol t "PTS")) (colSum (getCol t "MIN"))).map (· * 48)

/-- `'Offensive Rating': (... / ...) * 100 if processed_df['FGA'].sum() != 0 else 0`
(line 119 of `1streamlit_app.py`, guarded). -/
def offRatingAlt (t : Table) : ℚ :=
  if colSum (getCol t "FGA") ≠ 0 then
    colSum (getCol t "FGM") / colSum (getCol t "FGA") * 100
  else 0

/-- `'Efficiency': (... / ...) * 48 if processed_df['MIN'].sum() != 0 else 0`
(line 121 of `1streamlit_app.py`, guarded). -/
def efficiencyAlt (t : Table) : ℚ :=
  if colSum (getCol t "MIN") ≠ 0 then
    colSum (getCol t "PTS") / colSum (getCol t "MIN") * 48
  else 0

/-- A one-row game log holding every base column, each cell 1. -/
def sampleRow1 : Table :=
  (features ++ [target]).map (fun f => (f, [some 1]))

/-- A one-row game log in which every statistic — `MIN` included — is 0. -/
def zeroMinTable : Table :=
  (features ++ [target]).map (fun f => (f, [some 0]))

/-! ## Model training (`train_models`) -/

/-- A fitted scikit-learn-style regressor, abstracted to its observable
capabilities: `model.predict(X)` and `model.score(X, y)` (held-out R²). -/
structure FittedModel where
  predict : List (List ℚ) → List ℚ
  score : List (List ℚ) → List ℚ → ℚ

/-- An unfitted candidate: `model.fit(X_train, y_train)` yields the fitted
regressor (scikit-learn fits in place and returns the model; only the
fitted object is observed afterwards). -/
abbrev Model := List (List ℚ) → List ℚ → FittedModel

/-- The four lists returned by `train_test_split(X, y, ...)`. -/
structure SplitData where
  XTrain : List (List ℚ)
  XTest : List (List ℚ)
  yTrain : List ℚ
  yTest : List ℚ

/-- The library functions `train_models` calls: `train_test_split`
(arguments: X, y, test_size, random_state) and the four candidate model
constructors of line 158–163 of `streamlit_app.py`. -/
structure SkLib where
  train_test_split : List (List ℚ) → List ℚ → ℚ → Nat → SplitData
  randomForest : Model
  gradientBoosting : Model
  xgboost : Model
  neuralNetwork : Model

/-- `models.items()` in the dict's fixed insertion order. -/
def modelItems (lib : SkLib) : List (String × Model) :=
  [("Random Forest", lib.randomForest),
   ("Gradient Boosting", lib.gradientBoosting),
   ("XGBoost", lib.xgboost),
   ("Neural Network", lib.neuralNetwork)]

/-- One entry of the `results` dict (lines 174–179 of `streamlit_app.py`). -/
structure ModelResult where
  fitted : FittedModel
  score : ℚ
  predictions : List ℚ
  y_test : List ℚ

/-- The body of one loop iteration that builds `results[name]`: fit on the
training partition, score/predict on the held-out partition. -/
def mkEntry (s : SplitData) (nm : String × Model) : String × ModelResult :=
  let fitted := nm.2 s.XTrain s.yTrain
  (nm.1, ⟨fitted, fitted.score s.XTest s.yTest, fitted.predict s.XTest, s.yTest⟩)

/-- The `if score > best_score:` update (lines 180–182).  The pair is
`(best_model, best_score)`; `best_score = -inf` is modelled `none`, and any
score exceeds `-inf`. -/
def bestStep (b : Option FittedModel × Option ℚ) (r : String × ModelResult) :
    Option FittedModel × Option ℚ :=
  match b.2 with
  | none => (some r.2.fitted, some r.2.score)
  | some bs => if r.2.score > bs then (some r.2.fitted, some r.2.score) else b

/-- One full iteration of the candidate loop: extend `results` and update
the running best. -/
def trainStep (s : SplitData)
    (st : (Option FittedModel × Option ℚ) × List (String × ModelResult))
    (nm : String × Model) :
    (Option FittedModel × Option ℚ) × List (String × ModelResult) :=
  let e := mkEntry s nm
  (bestStep st.1 e, st.2 ++ [e])

/-- `train_models(X, y)`, lines 156–184 of `streamlit_app.py`: one 80/20
split with `random_state=42` drawn before the loop, then every candidate
fit and scored on it; returns `(best_model, results)`. -/
def train_models (lib : SkLib) (X : List (List ℚ)) (y : List ℚ) :
    Option FittedModel × List (String × ModelResult) :=
  let s := lib.train_test_split X y (1/5) 42
  let r := (modelItems lib).foldl (trainStep s) ((none, none), [])
  (r.1.1, r.2)

/-- One step of Python's `max(..., key=f)`: the running maximum is replaced
only on a strictly greater key, so ties keep the earlier item. -/
def pyStep {α : Type} (f : α → ℚ) (acc : Option α) (x : α) : Option α :=
  match acc with
  | none => some x
  | some b => if f x > f b then some x else some b

/-- Python's `max(l, key=f)` (None on an empty iterable instead of
raising). -/
def pyMax {α : Type} (f : α → ℚ) (l : List α) : Option α :=
  l.foldl (pyStep f) none

/-- `max(model_results.items(), key=lambda x: x[1]['score'])`
(line 254 of `streamlit_app.py`). -/
def pyMaxItems (results : List (String × ModelResult)) :
    Option (String × ModelResult) :=
  pyMax (fun r => r.2.score) results

/-- `best_result = model_results[max(model_results.items(), ...)[0]]`:
the dict lookup retrieves the (first) entry bearing the winning key. -/
def chartedResult (results : List (String × ModelResult)) :
    Option (String × ModelResult) :=
  match pyMaxItems results with
  | none => none
  | some m => results.find? (fun r => r.1 == m.1)

/-- The pure inner step of `pyStep` once the accumulator is non-empty. -/
def pickStep {α : Type} (f : α → ℚ) (b x : α) : α :=
  if f x > f b then x else b

/-- Fitted models of the scenario candidates: scores 0.5, 0.7, 0.7, 0.3 in
declared order, made distinguishable through `predict`. -/
def fitRF : FittedModel := ⟨fun _ => [1], fun _ _ => 1/2⟩

/-- See `fitRF`. -/
def fitGB : FittedModel := ⟨fun _ => [2], fun _ _ => 7/10⟩

/-- See `fitRF`. -/
def fitXGB : FittedModel := ⟨fun _ => [3], fun _ _ => 7/10⟩

/-- See `fitRF`. -/
def fitNN : FittedModel := ⟨fun _ => [4], fun _ _ => 3/10⟩

/-- A concrete library realizing the tie scenario {0.5, 0.7, 0.7, 0.3}. -/
def sampleLib : SkLib :=
  ⟨fun X y _ _ => ⟨X, X, y, y⟩,
   fun _ _ => fitRF, fun _ _ => fitGB, fun _ _ => fitXGB, fun _ _ => fitNN⟩

/-! ## Lemmas and claim theorems -/

/-- Since `fetch_player_gamelog` never raises, the retry loop always exits
on its first iteration: one attempt, no sleeps, and the step is `gotSome`
exactly when the raw call delivered frames. -/
lemma seasonGo_fetchAttempt {α : Type} (env : FetchEnv α) (s : String)
    (maxR attempt rem : Nat) :
    seasonGo (fetchAttempt env s) maxR attempt (rem + 1) =
      (match env.raw s attempt with
       | .frames rows => (.gotSome rows, 1, 0)
       | _ => (.gotNone, 1, 0)) := by
  cases h : env.raw s attempt <;>
    simp [seasonGo, fetchAttempt, fetch_player_gamelog, h]

/-- Claim C1: for every call to `get_player_data`, the function never
raises, and it returns the concatenation of the rows of the seasons whose
fetch succeeded whenever identity resolution passed and at least one season
succeeded; it returns `None` exactly when identity resolution failed or
every requested season failed.  In particular no single season's failure
by itself fails the whole player. -/
theorem claim_C1 {α : Type} (env : FetchEnv α) :
    get_player_data env 3 =
      .ok (if idTruthy env then
             (if (successRows env).isEmpty then none
              else some (successRows env).flatten)
           else none) := by
  rcases env with ⟨pid, raw⟩
  match pid with
  | none => simp [get_player_data, idTruthy]
  | some p =>
    by_cases hp : p = 0
    · simp [get_player_data, idTruthy, hp]
    · cases h1 : raw "2024-25" 0 <;> cases h2 : raw "2023-24" 0 <;>
        simp [get_player_data, hp, seasonsLoop, SEASONS,
          seasonGo_fetchAttempt, h1, h2, idTruthy, successRows]

/-- Claim C2: contrary to the claim, no execution of `get_player_data`
ever attempts a season's fetch more than once: `fetch_player_gamelog`
catches every exception internally and returns `None`, so the
`except (ReadTimeout, ConnectionError)` retry branch is unreachable.  Every
season is attempted exactly once with zero backoff sleeps — even in the
environment where the raw network call raises `ReadTimeout` on every
attempt, where the whole player resolves to `None` after a single attempt
per season. -/
theorem claim_C2_retries_dead :
    (∀ (α : Type) (env : FetchEnv α) (s : String),
        seasonAttempts env s 3 = 1 ∧ seasonSleeps env s 3 = 0) ∧
    seasonAttempts envAllTransient "2024-25" 3 = 1 ∧
    seasonSleeps envAllTransient "2024-25" 3 = 0 ∧
    get_player_data envAllTransient 3 = .ok none := by
  refine ⟨fun α env s => ?_, rfl, rfl, rfl⟩
  show ((seasonGo (fetchAttempt env s) 3 0 (2 + 1)).2.1 = 1 ∧
        (seasonGo (fetchAttempt env s) 3 0 (2 + 1)).2.2 = 0)
  rw [seasonGo_fetchAttempt]
  cases env.raw s 0 <;> simp

lemma rosterStep_ok_some {α : Type} {result : String → Except PyErr (Option (List α))}
    {player : String} {rows : List α} (acc : List (String × List α))
    (h : result player = .ok (some rows)) :
    rosterStep result acc player = if rows.isEmpty then acc else acc ++ [(player, rows)] := by
  simp [rosterStep, h]

lemma rosterStep_skip {α : Type} {result : String → Except PyErr (Option (List α))}
    {player : String} (acc : List (String × List α))
    (h : result player = .ok none ∨ ∃ e, result player = .error e) :
    rosterStep result acc player = acc := by
  rcases h with h | ⟨e, h⟩ <;> simp [rosterStep, h]

lemma rosterStep_mono {α : Type} (result : String → Except PyErr (Option (List α)))
    (acc : List (String × List α)) (player : String) (p : String × List α)
    (hp : p ∈ acc) : p ∈ rosterStep result acc player := by
  rcases hr : result player with e | o
  · rw [rosterStep_skip acc (.inr ⟨e, hr⟩)]
    exact hp
  · rcases o with _ | rows
    · rw [rosterStep_skip acc (.inl hr)]
      exact hp
    · rw [rosterStep_ok_some acc hr]
      by_cases he : rows.isEmpty <;> simp [he, hp]

lemma foldl_rosterStep_mono {α : Type} (result : String → Except PyErr (Option (List α)))
    (order : List String) (acc : List (String × List α)) (p : String × List α)
    (hp : p ∈ acc) : p ∈ order.foldl (rosterStep result) acc := by
  induction order generalizing acc with
  | nil => exact hp
  | cons x rest ih => exact ih _ (rosterStep_mono result acc x p hp)

lemma rosterStep_length {α : Type} (result : String → Except PyErr (Option (List α)))
    (acc : List (String × List α)) (player : String) :
    (rosterStep result acc player).length ≤ acc.length + 1 := by
  rcases hr : result player with e | o
  · rw [rosterStep_skip acc (.inr ⟨e, hr⟩)]
    omega
  · rcases o with _ | rows
    · rw [rosterStep_skip acc (.inl hr)]
      omega
    · rw [rosterStep_ok_some acc hr]
      by_cases he : rows.isEmpty <;> simp [he]

lemma foldl_rosterStep_length {α : Type} (result : String → Except PyErr (Option (List α)))
    (order : List String) (acc : List (String × List α)) :
    (order.foldl (rosterStep result) acc).length ≤ acc.length + order.length := by
  induction order generalizing acc with
  | nil => simp
  | cons x rest ih =>
    have h1 := rosterStep_length result acc x
    have h2 := ih (rosterStep result acc x)
    simp only [List.foldl_cons, List.length_cons]
    omega

lemma foldl_rosterStep_mem {α : Type} (result : String → Except PyErr (Option (List α)))
    (order : List String) (acc : List (String × List α)) (p : String × List α)
    (hp : p ∈ order.foldl (rosterStep result) acc) :
    p ∈ acc ∨ (p.1 ∈ order ∧ result p.1 = .ok (some p.2) ∧ ¬p.2.isEmpty) := by
  induction order generalizing acc with
  | nil => exact .inl hp
  | cons x rest ih =>
    rcases ih (rosterStep result acc x) hp with h | h
    · rcases hr : result x with e | o
      · rw [rosterStep_skip acc (.inr ⟨e, hr⟩)] at h
        exact .inl h
      · rcases o with _ | rows
        · rw [rosterStep_skip acc (.inl hr)] at h
          exact .inl h
        · rw [rosterStep_ok_some acc hr] at h
          by_cases he : rows.isEmpty
          · rw [if_pos he] at h
            exact .inl h
          · rw [if_neg he] at h
            rcases List.mem_append.mp h with h' | h'
            · exact .inl h'
            · right
              rcases List.mem_singleton.mp h' with rfl
              exact ⟨List.mem_cons_self _ _, hr, he⟩
    · exact .inr ⟨List.mem_cons_of_mem _ h.1, h.2⟩

lemma foldl_rosterStep_complete {α : Type} (result : String → Except PyErr (Option (List α)))
    (order : List String) (acc : List (String × List α)) (player : String)
    (rows : List α) (hmem : player ∈ order)
    (hres : result player = .ok (some rows)) (hne : ¬rows.isEmpty) :
    (player, rows) ∈ order.foldl (rosterStep result) acc := by
  induction order generalizing acc with
  | nil => cases hmem
  | cons x rest ih =>
    rcases List.mem_cons.mp hmem with rfl | h
    · rw [List.foldl_cons]
      refine foldl_rosterStep_mono result rest _ _ ?_
      rw [rosterStep_ok_some acc hres, if_neg hne]
      simp
    · rw [List.foldl_cons]
      exact ih _ h

/-- Claim C7: for every roster batch and completion order, the mapping
returned by `fetch_all_player_data` has at most roster-many entries, every
included player belongs to the roster and carries a non-empty row sequence,
and every player whose own fetch succeeded with non-empty rows is included
— other players' failures (exception, `None`, or empty frame) never abort
the batch. -/
theorem claim_C7 {α : Type} (result : String → Except PyErr (Option (List α)))
    (roster order : List String) (hperm : order.Perm roster) :
    (fetch_all_player_data result order).length ≤ roster.length ∧
    (∀ p ∈ fetch_all_player_data result order, p.1 ∈ roster ∧ ¬p.2.isEmpty) ∧
    (∀ player ∈ roster, ∀ rows, result player = .ok (some rows) → ¬rows.isEmpty →
      (player, rows) ∈ fetch_all_player_data result order) := by
  refine ⟨?_, fun p hp => ?_, fun player hpl rows hres hne => ?_⟩
  · have := foldl_rosterStep_length result order []
    simpa [fetch_all_player_data, hperm.length_eq] using this
  · rcases foldl_rosterStep_mem result order [] p hp with h | h
    · cases h
    · exact ⟨hperm.mem_iff.mp h.1, h.2.2⟩
  · exact foldl_rosterStep_complete result order [] player rows
      (hperm.mem_iff.mpr hpl) hres hne

/-- Witness for claim C7 at the concrete three-player batch `wRes` with
roster and completion order `["A", "B", "C"]`. -/
theorem claim_C7_witness :
    (fetch_all_player_data wRes ["A", "B", "C"]).length ≤ 3 ∧
    (∀ p ∈ fetch_all_player_data wRes ["A", "B", "C"],
      p.1 ∈ ["A", "B", "C"] ∧ ¬p.2.isEmpty) ∧
    (∀ player ∈ ["A", "B", "C"], ∀ rows, wRes player = .ok (some rows) →
      ¬rows.isEmpty → (player, rows) ∈ fetch_all_player_data wRes ["A", "B", "C"]) :=
  claim_C7 wRes ["A", "B", "C"] ["A", "B", "C"] (List.Perm.refl _)

lemma rollingMean_getElem (w : Nat) (xs : Col) (i : Nat) (hi : i < xs.length) :
    (rollingMean w xs)[i]? =
      some (if ((windowAt w xs i).filterMap id).length = 0 then none
            else some (((windowAt w xs i).filterMap id).sum /
                       (((windowAt w xs i).filterMap id).length : ℚ))) := by
  simp [rollingMean, List.getElem?_range, hi]

lemma windowAt_map_some (ys : List ℚ) (w i : Nat) :
    windowAt w (ys.map some) i = ((ys.take (i + 1)).drop (i + 1 - w)).map some := by
  simp [windowAt, List.map_take, List.map_drop]

lemma window_length (ys : List ℚ) (w i : Nat) (hi : i < ys.length) :
    ((ys.take (i + 1)).drop (i + 1 - w)).length = min (i + 1) w := by
  rw [List.length_drop, List.length_take]
  omega

lemma rollingMean_window (ys : List ℚ) (w i : Nat) (hw1 : 1 ≤ w) (hi : i < ys.length) :
    (rollingMean w (ys.map some))[i]? =
      some (some (((ys.take (i + 1)).drop (i + 1 - w)).sum /
                  ((((ys.take (i + 1)).drop (i + 1 - w)).length : ℚ)))) := by
  have hi' : i < (ys.map some).length := by simpa using hi
  rw [rollingMean_getElem w (ys.map some) i hi', windowAt_map_some]
  have hv : (((ys.take (i + 1)).drop (i + 1 - w)).map some).filterMap id
      = (ys.take (i + 1)).drop (i + 1 - w) := by
    rw [List.filterMap_map]
    simp
  rw [hv]
  have hlen : ((ys.take (i + 1)).drop (i + 1 - w)).length ≠ 0 := by
    rw [window_length ys w i hi]
    omega
  rw [if_neg hlen]

/-- Claim C4: for every input series and window `w ∈ {3, 5, 10}`, the
rolling-mean column at row `i` is the arithmetic mean of the `min (i+1) w`
most recent values up to and including row `i` (a suffix of the first
`i + 1` values); on the two-row series `[10, 20]` the window-3 rolling
column is `[10, 15]`. -/
theorem claim_C4 :
    (∀ (ys : List ℚ) (w i : Nat), w ∈ rolling_windows → i < ys.length →
      ∃ win : List ℚ,
        (rollingMean w (ys.map some))[i]? = some (some (win.sum / (win.length : ℚ))) ∧
        win.length = min (i + 1) w ∧ win <:+ ys.take (i + 1)) ∧
    rollingMean 3 [some 10, some 20] = [some 10, some 15] := by
  constructor
  · intro ys w i hw hi
    have hw1 : 1 ≤ w := by
      simp [rolling_windows] at hw
      rcases hw with rfl | rfl | rfl <;> omega
    exact ⟨(ys.take (i + 1)).drop (i + 1 - w), rollingMean_window ys w i hw1 hi,
      window_length ys w i hi, List.drop_suffix _ _⟩
  · show rollingMean 3 [some 10, some 20] = [some 10, some 15]
    norm_num [rollingMean, windowAt, List.range_succ, List.filterMap_cons]
    constructor <;> intros <;> simp_all

/-- Claim C3 counterexample: in `streamlit_app.py`'s `main` the ratio
metrics are unguarded.  On a concrete engineered table whose `MIN` column
sums to 0, the Efficiency metric is the non-finite result of a zero
division (`none`), not the number 0 as claimed. -/
theorem claim_C3_counterexample :
    colSum (getCol zeroMinTable "MIN") = 0 ∧
    efficiencyMain zeroMinTable ≠ some 0 ∧
    efficiencyMain zeroMinTable = none := by
  have hmin : getCol zeroMinTable "MIN" = [some 0] := rfl
  have hsum : colSum (getCol zeroMinTable "MIN") = 0 := by
    rw [hmin]
    norm_num [colSum, List.filterMap_cons]
  refine ⟨hsum, ?_, ?_⟩ <;> simp [efficiencyMain, pyDiv, hsum]

/-- Claim C3 as amended: the guarded metrics of `1streamlit_app.py` report
0 on a zero denominator (a zero-`MIN` player gets Efficiency 0), while the
unguarded metrics of `streamlit_app.py` report a non-finite value
(`none`), which is neither 0 nor a raised fault. -/
theorem claim_C3_amended (t : Table) :
    (colSum (getCol t "MIN") = 0 →
      efficiencyAlt t = 0 ∧ efficiencyMain t = none) ∧
    (colSum (getCol t "FGA") = 0 →
      offRatingAlt t = 0 ∧ offRatingMain t = none) := by
  constructor
  · intro h
    constructor
    · simp [efficiencyAlt, h]
    · simp [efficiencyMain, pyDiv, h]
  · intro h
    constructor
    · simp [offRatingAlt, h]
    · simp [offRatingMain, pyDiv, h]

lemma setCol_of_not_mem {t : Table} {name : String} (v : Col)
    (h : name ∉ t.map Prod.fst) : setCol t name v = t ++ [(name, v)] := by
  rw [setCol, if_neg]
  intro hx
  obtain ⟨c, hc, he⟩ := List.any_eq_true.mp hx
  exact h (List.mem_map.mpr ⟨c, hc, beq_iff_eq.mp he⟩)

lemma getCol_append_left {t : Table} (u : Table) {name : String}
    (h : name ∈ t.map Prod.fst) : getCol (t ++ u) name = getCol t name := by
  obtain ⟨c, hc, he⟩ := List.mem_map.mp h
  have hsome : (t.find? fun c => c.1 == name).isSome :=
    List.find?_isSome.mpr ⟨c, hc, beq_iff_eq.mpr he⟩
  obtain ⟨d, hd⟩ := Option.isSome_iff_exists.mp hsome
  rw [getCol, getCol, List.find?_append, hd, Option.or_some]

lemma getCol_mem {t : Table} {name : String} (h : name ∈ t.map Prod.fst) :
    ∃ c ∈ t, c.1 = name ∧ getCol t name = c.2 := by
  obtain ⟨c, hc, he⟩ := List.mem_map.mp h
  have hsome : (t.find? fun c => c.1 == name).isSome :=
    List.find?_isSome.mpr ⟨c, hc, beq_iff_eq.mpr he⟩
  obtain ⟨d, hd⟩ := Option.isSome_iff_exists.mp hsome
  have hp : (d.1 == name) = true :=
    @List.find?_some _ (fun c => c.1 == name) d t hd
  refine ⟨d, List.mem_of_find?_eq_some hd, beq_iff_eq.mp hp, ?_⟩
  rw [getCol, hd]
  rfl

lemma genCols_cons (t : Table) (p : String × Nat) (P : List (String × Nat)) :
    genCols t (p :: P) =
      (rollingName p.1 p.2, rollingMean p.2 (getCol t p.1)) :: genCols t P := rfl

lemma pairsFold_eq (t : Table) (P : List (String × Nat)) (done : Table)
    (hbase : ∀ p ∈ P, p.1 ∈ t.map Prod.fst)
    (hfresh : ∀ p ∈ P, rollingName p.1 p.2 ∉ t.map Prod.fst ∧
      rollingName p.1 p.2 ∉ done.map Prod.fst)
    (hnodup : (P.map (fun p => rollingName p.1 p.2)).Nodup) :
    P.foldl (fun acc p =>
        setCol acc (rollingName p.1 p.2) (rollingMean p.2 (getCol acc p.1)))
      (t ++ done) = t ++ done ++ genCols t P := by
  induction P generalizing done with
  | nil => simp [genCols]
  | cons p P ih =>
    have hp1 : p.1 ∈ t.map Prod.fst := hbase p (List.mem_cons_self _ _)
    have hgc : getCol (t ++ done) p.1 = getCol t p.1 := getCol_append_left done hp1
    have hnm : rollingName p.1 p.2 ∉ (t ++ done).map Prod.fst := by
      rw [List.map_append]
      intro hmem
      rcases List.mem_append.mp hmem with h | h
      · exact (hfresh p (List.mem_cons_self _ _)).1 h
      · exact (hfresh p (List.mem_cons_self _ _)).2 h
    rw [List.foldl_cons, hgc, setCol_of_not_mem _ hnm, List.append_assoc t done _]
    have step := ih (done ++ [(rollingName p.1 p.2, rollingMean p.2 (getCol t p.1))])
      (fun q hq => hbase q (List.mem_cons_of_mem _ hq))
      (fun q hq => by
        refine ⟨(hfresh q (List.mem_cons_of_mem _ hq)).1, ?_⟩
        rw [List.map_append]
        intro hmem
        rcases List.mem_append.mp hmem with h | h
        · exact (hfresh q (List.mem_cons_of_mem _ hq)).2 h
        · have : rollingName q.1 q.2 = rollingName p.1 p.2 := by
            simpa using h
          have hne : rollingName p.1 p.2 ∉ P.map (fun q => rollingName q.1 q.2) :=
            (List.nodup_cons.mp hnodup).1
          exact hne (this ▸ List.mem_map_of_mem _ hq))
      (List.nodup_cons.mp hnodup).2
    rw [step, genCols_cons]
    simp [List.append_assoc]

lemma addRollingColumns_eq_pairsFold (t : Table) :
    addRollingColumns t =
      fieldWindowPairs.foldl (fun acc p =>
        setCol acc (rollingName p.1 p.2) (rollingMean p.2 (getCol acc p.1))) t := by
  rw [addRollingColumns, fieldWindowPairs]
  generalize features ++ [target] = fs
  induction fs generalizing t with
  | nil => rfl
  | cons f fs ih =>
    rw [List.foldl_cons, List.flatMap_cons, List.foldl_append, List.foldl_map, ih]

lemma addRollingColumns_structure (t : Table)
    (hbase : ∀ f ∈ features ++ [target], f ∈ t.map Prod.fst)
    (hfresh : ∀ n ∈ rollingColNames, n ∉ t.map Prod.fst) :
    addRollingColumns t = t ++ genCols t fieldWindowPairs := by
  rw [addRollingColumns_eq_pairsFold]
  have h := pairsFold_eq t fieldWindowPairs []
    (fun p hp => by
      refine hbase p.1 ?_
      have : ∀ q ∈ fieldWindowPairs, q.1 ∈ features ++ [target] := by decide
      exact this p hp)
    (fun p hp => by
      refine ⟨hfresh _ (List.mem_map_of_mem _ hp), ?_⟩
      simp)
    (by rw [show fieldWindowPairs.map (fun p => rollingName p.1 p.2) = rollingColNames from rfl]
        decide)
  simpa using h

lemma filterMap_get?_range : ∀ (l : Col),
    (List.range l.length).filterMap (fun i => l.get? i) = l
  | [] => rfl
  | x :: xs => by
    rw [List.length_cons, List.range_succ_eq_map, List.filterMap_cons]
    simp only [List.get?_cons_zero, List.filterMap_map]
    have : (fun i => (x :: xs).get? (Nat.succ i)) = fun i => xs.get? i := by
      funext i
      rfl
    rw [show ((fun i => (x :: xs).get? i) ∘ Nat.succ) = fun i => xs.get? i from this]
    rw [filterMap_get?_range xs]

lemma rowKept_of_noMissing {t : Table} (hwf : wfTable t) (hnm : noMissing t)
    {i : Nat} (hi : i < nRows t) : rowKept t i = true := by
  rw [rowKept, List.all_eq_true]
  intro c hc
  have hlen : i < c.2.length := by rw [hwf c hc]; exact hi
  have hxm : c.2.getD i none = c.2.get ⟨i, hlen⟩ := by
    rw [List.getD_eq_getElem?_getD, List.getElem?_eq_getElem hlen]
    rfl
  rw [hxm]
  have : c.2.get ⟨i, hlen⟩ ≠ none := hnm c hc _ (c.2.get_mem _ _)
  cases h : c.2.get ⟨i, hlen⟩ with
  | none => exact absurd h this
  | some q => rfl

lemma dropna_of_noMissing {t : Table} (hwf : wfTable t) (hnm : noMissing t) :
    dropna t = t := by
  have hfilter : (List.range (nRows t)).filter (rowKept t) = List.range (nRows t) :=
    List.filter_eq_self.mpr (fun i hi =>
      rowKept_of_noMissing hwf hnm (List.mem_range.mp hi))
  rw [dropna, hfilter]
  have : ∀ c ∈ t, (c.1, (List.range (nRows t)).filterMap (fun i => c.2.get? i)) = c := by
    intro c hc
    rw [← hwf c hc, filterMap_get?_range c.2]
  calc t.map (fun c => (c.1, (List.range (nRows t)).filterMap (fun i => c.2.get? i)))
      = t.map id := List.map_congr_left this
    _ = t := List.map_id t

lemma rollingMean_length (w : Nat) (xs : Col) :
    (rollingMean w xs).length = xs.length := by
  simp [rollingMean]

lemma rollingMean_noMissing {w : Nat} (hw : 1 ≤ w) {xs : Col}
    (hxs : ∀ x ∈ xs, x ≠ none) : ∀ y ∈ rollingMean w xs, y ≠ none := by
  intro y hy
  obtain ⟨i, hi, hfy⟩ := List.mem_map.mp hy
  have hilt : i < xs.length := List.mem_range.mp hi
  have hwin : (windowAt w xs i).length = min (i + 1) w := by
    rw [windowAt, List.length_drop, List.length_take]
    omega
  have hne : windowAt w xs i ≠ [] := by
    intro h
    rw [h] at hwin
    simp at hwin
    omega
  obtain ⟨z, hz⟩ := List.exists_mem_of_ne_nil _ hne
  have hzxs : z ∈ xs := by
    have h1 : z ∈ xs.take (i + 1) := List.mem_of_mem_drop hz
    exact List.take_subset _ _ h1
  obtain ⟨q, hq⟩ := Option.ne_none_iff_exists.mp (hxs z hzxs)
  have hqv : q ∈ (windowAt w xs i).filterMap id :=
    List.mem_filterMap.mpr ⟨z, hz, hq.symm⟩
  have hlen : ((windowAt w xs i).filterMap id).length ≠ 0 := by
    intro h
    rw [List.length_eq_zero] at h
    rw [h] at hqv
    cases hqv
  rw [← hfy, if_neg hlen]
  exact Option.some_ne_none _

lemma nRows_append_left {t : Table} (u : Table) (h : t ≠ []) :
    nRows (t ++ u) = nRows t := by
  cases t with
  | nil => exact absurd rfl h
  | cons c cs => rfl

lemma genCols_pairs_wf {t : Table} (hwf : wfTable t) (hnm : noMissing t)
    (hbase : ∀ f ∈ features ++ [target], f ∈ t.map Prod.fst) :
    (∀ c ∈ genCols t fieldWindowPairs, c.2.length = nRows t) ∧
    (∀ c ∈ genCols t fieldWindowPairs, ∀ x ∈ c.2, x ≠ none) := by
  have hp1 : ∀ p ∈ fieldWindowPairs, p.1 ∈ features ++ [target] := by decide
  have hp2 : ∀ p ∈ fieldWindowPairs, 1 ≤ p.2 := by decide
  constructor
  · intro c hc
    obtain ⟨p, hp, hpc⟩ := List.mem_map.mp hc
    obtain ⟨d, hd, _, hcol⟩ := getCol_mem (hbase p.1 (hp1 p hp))
    rw [← hpc]
    show (rollingMean p.2 (getCol t p.1)).length = nRows t
    rw [rollingMean_length, hcol]
    exact hwf d hd
  · intro c hc x hx
    obtain ⟨p, hp, hpc⟩ := List.mem_map.mp hc
    obtain ⟨d, hd, _, hcol⟩ := getCol_mem (hbase p.1 (hp1 p hp))
    rw [← hpc] at hx
    refine rollingMean_noMissing (hp2 p hp) ?_ x hx
    rw [hcol]
    exact hnm d hd

lemma preprocess_structure (t : Table)
    (hwf : wfTable t) (hnm : noMissing t)
    (hbase : ∀ f ∈ features ++ [target], f ∈ t.map Prod.fst)
    (hfresh : ∀ n ∈ rollingColNames, n ∉ t.map Prod.fst)
    (hrows : nRows t ≠ 0) :
    preprocess_game_log t =
      (some (t ++ genCols t fieldWindowPairs), t ++ genCols t fieldWindowPairs) := by
  have htne : t ≠ [] := by
    intro h
    have hmin := hbase "MIN" (by decide)
    rw [h] at hmin
    cases hmin
  have hstruct := addRollingColumns_structure t hbase hfresh
  have hnrows : nRows (t ++ genCols t fieldWindowPairs) = nRows t :=
    nRows_append_left _ htne
  have hgen := genCols_pairs_wf hwf hnm hbase
  have hwf' : wfTable (t ++ genCols t fieldWindowPairs) := by
    intro c hc
    rw [hnrows]
    rcases List.mem_append.mp hc with h | h
    · exact hwf c h
    · exact hgen.1 c h
  have hnm' : noMissing (t ++ genCols t fieldWindowPairs) := by
    intro c hc x hx
    rcases List.mem_append.mp hc with h | h
    · exact hnm c h x hx
    · exact hgen.2 c h x hx
  rw [preprocess_game_log, if_neg, hstruct, dropna_of_noMissing hwf' hnm']
  simp [List.isEmpty_iff, htne, hrows]

/-- Claim C8 counterexample: on a concrete non-empty, well-formed game log,
`preprocess_game_log` mutates the caller's frame (the state of the argument
after the call differs from the input), and the returned frame has 51
appended rolling columns, not 48. -/
theorem claim_C8_counterexample :
    (preprocess_game_log sampleRow1).2 ≠ sampleRow1 ∧
    (preprocess_game_log sampleRow1).1.map List.length ≠ some (sampleRow1.length + 48) := by
  have h := preprocess_structure sampleRow1 (by decide) (by decide) (by decide)
    (by decide) (by decide)
  rw [h]
  have hlen : (genCols sampleRow1 fieldWindowPairs).length = 51 := by
    rw [genCols, List.length_map]
    rfl
  constructor
  · intro he
    have := congrArg List.length he
    rw [List.length_append, hlen] at this
    omega
  · show Option.map List.length
        (some (sampleRow1 ++ genCols sampleRow1 fieldWindowPairs)) ≠
        some (sampleRow1.length + 48)
    intro he
    have h2 := Option.some.inj he
    rw [List.length_append, hlen] at h2
    revert h2
    decide

/-- Claim C8 as amended: for every non-empty well-formed game log (no
missing cells, all base columns present, no name clash with the derived
columns), `preprocess_game_log` is a deterministic transform returning the
input columns with 51 appended rolling columns (17 fields × 3 windows, not
48 as claimed), but it is not mutation-free: the caller's frame itself ends
up extended with the same 51 columns. -/
theorem claim_C8 (t : Table)
    (hwf : wfTable t) (hnm : noMissing t)
    (hbase : ∀ f ∈ features ++ [target], f ∈ t.map Prod.fst)
    (hfresh : ∀ n ∈ rollingColNames, n ∉ t.map Prod.fst)
    (hrows : nRows t ≠ 0) :
    preprocess_game_log t =
      (some (t ++ genCols t fieldWindowPairs), t ++ genCols t fieldWindowPairs) ∧
    (t ++ genCols t fieldWindowPairs).map Prod.fst = t.map Prod.fst ++ rollingColNames ∧
    rollingColNames.length = 51 ∧
    (preprocess_game_log t).2 ≠ t := by
  have h := preprocess_structure t hwf hnm hbase hfresh hrows
  refine ⟨h, ?_, by decide, ?_⟩
  · rw [List.map_append]
    congr 1
  · rw [h]
    intro he
    have := congrArg List.length he
    rw [List.length_append] at this
    have h51 : (genCols t fieldWindowPairs).length = 51 := by
      simp only [genCols, List.length_map]
      rfl
    omega

/-- Witness for claim C8 at the concrete one-row table `sampleRow1`. -/
theorem claim_C8_witness :
    preprocess_game_log sampleRow1 =
      (some (sampleRow1 ++ genCols sampleRow1 fieldWindowPairs),
       sampleRow1 ++ genCols sampleRow1 fieldWindowPairs) ∧
    (sampleRow1 ++ genCols sampleRow1 fieldWindowPairs).map Prod.fst =
      sampleRow1.map Prod.fst ++ rollingColNames ∧
    rollingColNames.length = 51 ∧
    (preprocess_game_log sampleRow1).2 ≠ sampleRow1 :=
  claim_C8 sampleRow1 (by decide) (by decide) (by decide) (by decide) (by decide)

lemma modelX_names (u : Table) :
    (modelX u).map Prod.fst = selectModelFeatures u := by
  rw [modelX, List.map_map]
  exact List.map_id _

/-- Claim C9: the rolling means include the current row — at row `i` the
averaged window is `pre ++ [ys[i]]`, so `PTS_rolling_w` depends on the
current row's own `PTS` — and for every engineered table the columns
`PTS_rolling_3/5/10` are among the `_rolling_`-named features selected
into the model matrix `X`. -/
theorem claim_C9 (t : Table)
    (hwf : wfTable t) (hnm : noMissing t)
    (hbase : ∀ f ∈ features ++ [target], f ∈ t.map Prod.fst)
    (hfresh : ∀ n ∈ rollingColNames, n ∉ t.map Prod.fst)
    (hrows : nRows t ≠ 0) :
    (∀ (ys : List ℚ) (w i : Nat) (hi : i < ys.length), w ∈ rolling_windows →
      ∃ pre : List ℚ,
        (rollingMean w (ys.map some))[i]? =
          some (some ((pre ++ [ys.get ⟨i, hi⟩]).sum /
                      ((pre ++ [ys.get ⟨i, hi⟩]).length : ℚ)))) ∧
    (∀ w ∈ rolling_windows, ∀ out, (preprocess_game_log t).1 = some out →
      rollingName "PTS" w ∈ selectModelFeatures out ∧
      rollingName "PTS" w ∈ (modelX out).map Prod.fst) := by
  constructor
  · intro ys w i hi hw
    have hw1 : 1 ≤ w := by
      simp [rolling_windows] at hw
      rcases hw with rfl | rfl | rfl <;> omega
    refine ⟨(ys.take i).drop (i + 1 - w), ?_⟩
    have hsplit : ys.take (i + 1) = ys.take i ++ [ys.get ⟨i, hi⟩] := by
      rw [List.take_succ]
      simp [List.getElem?_eq_getElem hi]
    have hdrop : (ys.take (i + 1)).drop (i + 1 - w)
        = (ys.take i).drop (i + 1 - w) ++ [ys.get ⟨i, hi⟩] := by
      rw [hsplit, List.drop_append_of_le_length]
      rw [List.length_take]
      omega
    rw [rollingMean_window ys w i hw1 hi, hdrop]
  · intro w hw out hout
    rw [preprocess_structure t hwf hnm hbase hfresh hrows] at hout
    have hout' : out = t ++ genCols t fieldWindowPairs := (Option.some.inj hout).symm
    have hnames : out.map Prod.fst = t.map Prod.fst ++ rollingColNames := by
      rw [hout', List.map_append]
      congr 1
    have hmem : rollingName "PTS" w ∈ out.map Prod.fst := by
      rw [hnames]
      refine List.mem_append.mpr (.inr ?_)
      simp [rolling_windows] at hw
      rcases hw with rfl | rfl | rfl <;> decide
    have hsel : rollingName "PTS" w ∈ selectModelFeatures out := by
      rw [selectModelFeatures]
      refine List.mem_filter.mpr ⟨hmem, ?_⟩
      simp [rolling_windows] at hw
      rcases hw with rfl | rfl | rfl <;> decide
    exact ⟨hsel, by rw [modelX_names]; exact hsel⟩

/-- Witness for claim C9 at the concrete one-row table `sampleRow1`. -/
theorem claim_C9_witness :
    (∀ (ys : List ℚ) (w i : Nat) (hi : i < ys.length), w ∈ rolling_windows →
      ∃ pre : List ℚ,
        (rollingMean w (ys.map some))[i]? =
          some (some ((pre ++ [ys.get ⟨i, hi⟩]).sum /
                      ((pre ++ [ys.get ⟨i, hi⟩]).length : ℚ)))) ∧
    (∀ w ∈ rolling_windows, ∀ out, (preprocess_game_log sampleRow1).1 = some out →
      rollingName "PTS" w ∈ selectModelFeatures out ∧
      rollingName "PTS" w ∈ (modelX out).map Prod.fst) :=
  claim_C9 sampleRow1 (by decide) (by decide) (by decide) (by decide) (by decide)

lemma trainFold_decompose (s : SplitData) :
    ∀ (items : List (String × Model)) (b : Option FittedModel × Option ℚ)
      (rs : List (String × ModelResult)),
    items.foldl (trainStep s) (b, rs) =
      ((items.map (mkEntry s)).foldl bestStep b, rs ++ items.map (mkEntry s)) := by
  intro items
  induction items with
  | nil => intro b rs; simp
  | cons nm rest ih =>
    intro b rs
    rw [List.foldl_cons, List.map_cons, List.foldl_cons]
    show rest.foldl (trainStep s) (bestStep b (mkEntry s nm), rs ++ [mkEntry s nm]) = _
    rw [ih]
    simp

lemma pyFold_some {α : Type} (f : α → ℚ) :
    ∀ (xs : List α) (b : α),
    xs.foldl (pyStep f) (some b) = some (xs.foldl (pickStep f) b) := by
  intro xs
  induction xs with
  | nil => intro b; rfl
  | cons x rest ih =>
    intro b
    rw [List.foldl_cons, List.foldl_cons]
    have : pyStep f (some b) x = some (pickStep f b x) := by
      rw [pyStep, pickStep]
      by_cases h : f x > f b <;> simp [h]
    rw [this, ih]

lemma pickFold_spec {α : Type} (f : α → ℚ) :
    ∀ (xs : List α) (b : α),
    (xs.foldl (pickStep f) b = b ∧ ∀ x ∈ xs, f x ≤ f b) ∨
    (∃ pre post, xs = pre ++ xs.foldl (pickStep f) b :: post ∧
      f b < f (xs.foldl (pickStep f) b) ∧
      (∀ x ∈ pre, f x < f (xs.foldl (pickStep f) b)) ∧
      (∀ x ∈ post, f x ≤ f (xs.foldl (pickStep f) b))) := by
  intro xs
  induction xs with
  | nil => intro b; exact .inl ⟨rfl, by simp⟩
  | cons x rest ih =>
    intro b
    rw [List.foldl_cons]
    by_cases hbx : f x > f b
    · have hstep : pickStep f b x = x := by rw [pickStep, if_pos hbx]
      rw [hstep]
      rcases ih x with ⟨hr, hall⟩ | ⟨pre, post, heq, hlt, hpre, hpost⟩
      · refine .inr ⟨[], rest, ?_, ?_, by simp, ?_⟩
        · rw [hr]; rfl
        · rw [hr]; exact hbx
        · intro q hq; rw [hr]; exact hall q hq
      · refine .inr ⟨x :: pre, post, ?_, ?_, ?_, hpost⟩
        · rw [List.cons_append, ← heq]
        · exact lt_trans hbx hlt
        · intro q hq
          rcases List.mem_cons.mp hq with rfl | hq'
          · exact hlt
          · exact hpre q hq'
    · have hstep : pickStep f b x = b := by rw [pickStep, if_neg hbx]
      rw [hstep]
      rcases ih b with ⟨hr, hall⟩ | ⟨pre, post, heq, hlt, hpre, hpost⟩
      · refine .inl ⟨hr, ?_⟩
        intro q hq
        rcases List.mem_cons.mp hq with rfl | hq'
        · exact le_of_not_lt hbx
        · exact hall q hq'
      · refine .inr ⟨x :: pre, post, ?_, hlt, ?_, hpost⟩
        · rw [List.cons_append, ← heq]
        · intro q hq
          rcases List.mem_cons.mp hq with rfl | hq'
          · exact lt_of_le_of_lt (le_of_not_lt hbx) hlt
          · exact hpre q hq'

lemma pyMax_spec {α : Type} (f : α → ℚ) (l : List α) (hne : l ≠ []) :
    ∃ pre r post, l = pre ++ r :: post ∧ pyMax f l = some r ∧
      (∀ x ∈ pre, f x < f r) ∧ (∀ x ∈ post, f x ≤ f r) := by
  cases l with
  | nil => exact absurd rfl hne
  | cons x rest =>
    rw [pyMax, List.foldl_cons]
    show ∃ pre r post, _ ∧ rest.foldl (pyStep f) (pyStep f none x) = some r ∧ _ ∧ _
    have hx : pyStep f none x = some x := rfl
    rw [hx, pyFold_some]
    rcases pickFold_spec f rest x with ⟨hr, hall⟩ | ⟨pre, post, heq, hlt, hpre, hpost⟩
    · exact ⟨[], rest.foldl (pickStep f) x, rest, by rw [hr]; rfl, rfl, by simp,
        by rw [hr]; exact hall⟩
    · refine ⟨x :: pre, rest.foldl (pickStep f) x, post,
        by rw [List.cons_append, ← heq], rfl, ?_, hpost⟩
      intro q hq
      rcases List.mem_cons.mp hq with rfl | hq'
      · exact hlt
      · exact hpre q hq'

lemma bestFold_eq_pyFold :
    ∀ (entries : List (String × ModelResult)) (b : Option (String × ModelResult)),
    entries.foldl bestStep
        (b.map (fun r => r.2.fitted), b.map (fun r => r.2.score)) =
      ((entries.foldl (pyStep (fun r => r.2.score)) b).map (fun r => r.2.fitted),
       (entries.foldl (pyStep (fun r => r.2.score)) b).map (fun r => r.2.score)) := by
  intro entries
  induction entries with
  | nil => intro b; rfl
  | cons e rest ih =>
    intro b
    rw [List.foldl_cons, List.foldl_cons]
    cases b with
    | none =>
      have h2 : pyStep (fun r => r.2.score) none e = some e := rfl
      have h1 : bestStep ((none : Option (String × ModelResult)).map (fun r => r.2.fitted),
          (none : Option (String × ModelResult)).map (fun r => r.2.score)) e =
          ((some e).map (fun r => r.2.fitted), (some e).map (fun r => r.2.score)) := rfl
      rw [h1, h2]
      exact ih (some e)
    | some br =>
      by_cases h : e.2.score > br.2.score
      · have h1 : bestStep ((some br).map (fun r => r.2.fitted),
            (some br).map (fun r => r.2.score)) e =
            ((some e).map (fun r => r.2.fitted), (some e).map (fun r => r.2.score)) := by
          show bestStep (some br.2.fitted, some br.2.score) e = _
          rw [bestStep]
          simp only [if_pos h]
          rfl
        have h2 : pyStep (fun r => r.2.score) (some br) e = some e := by
          rw [pyStep]
          simp only [if_pos h]
        rw [h1, h2]
        exact ih (some e)
      · have h1 : bestStep ((some br).map (fun r => r.2.fitted),
            (some br).map (fun r => r.2.score)) e =
            ((some br).map (fun r => r.2.fitted), (some br).map (fun r => r.2.score)) := by
          show bestStep (some br.2.fitted, some br.2.score) e = _
          rw [bestStep]
          simp only [if_neg h]
          rfl
        have h2 : pyStep (fun r => r.2.score) (some br) e = some br := by
          rw [pyStep]
          simp only [if_neg h]
        rw [h1, h2]
        exact ih (some br)

lemma train_models_results (lib : SkLib) (X : List (List ℚ)) (y : List ℚ) :
    (train_models lib X y).2 =
      (modelItems lib).map (mkEntry (lib.train_test_split X y (1/5) 42)) := by
  rw [train_models]
  show ((modelItems lib).foldl (trainStep (lib.train_test_split X y (1/5) 42))
      ((none, none), [])).2 = _
  rw [trainFold_decompose]
  rfl

lemma train_models_best (lib : SkLib) (X : List (List ℚ)) (y : List ℚ) :
    (train_models lib X y).1 =
      (pyMaxItems ((train_models lib X y).2)).map (fun r => r.2.fitted) := by
  rw [train_models_results, train_models]
  show (((modelItems lib).foldl (trainStep (lib.train_test_split X y (1/5) 42))
      ((none, none), [])).1).1 = _
  rw [trainFold_decompose]
  show (((modelItems lib).map (mkEntry (lib.train_test_split X y (1/5) 42))).foldl
      bestStep (none, none)).1 = _
  show (((modelItems lib).map (mkEntry (lib.train_test_split X y (1/5) 42))).foldl
      bestStep ((none : Option (String × ModelResult)).map (fun r => r.2.fitted),
        (none : Option (String × ModelResult)).map (fun r => r.2.score))).1 = _
  rw [bestFold_eq_pyFold]
  rfl

lemma find?_name_nodup :
    ∀ (l : List (String × ModelResult)) (m : String × ModelResult),
    (l.map Prod.fst).Nodup → m ∈ l →
    l.find? (fun r => r.1 == m.1) = some m := by
  intro l
  induction l with
  | nil => intro m _ hm; cases hm
  | cons x rest ih =>
    intro m hnd hm
    rcases List.mem_cons.mp hm with rfl | hm'
    · rw [List.find?_cons_of_pos]
      exact beq_iff_eq.mpr rfl
    · have hne : x.1 ≠ m.1 := by
        intro he
        have h1 : x.1 ∉ rest.map Prod.fst := (List.nodup_cons.mp (by simpa using hnd)).1
        exact h1 (he ▸ List.mem_map_of_mem Prod.fst hm')
      rw [List.find?_cons_of_neg]
      · exact ih m (List.nodup_cons.mp (by simpa using hnd)).2 hm'
      · simp [hne]

/-- Claim C5: `train_models` returns as best the candidate with the
maximum held-out score, ties resolving to the earliest candidate in the
fixed iteration order (strictly larger than everything before it, at least
as large as everything after it); with scores (0.5, 0.7, 0.7, 0.3) in
declared order the second candidate (Gradient Boosting) wins. -/
theorem claim_C5 :
    (∀ (lib : SkLib) (X : List (List ℚ)) (y : List ℚ),
      ∃ pre r post, (train_models lib X y).2 = pre ++ r :: post ∧
        (train_models lib X y).1 = some r.2.fitted ∧
        (∀ q ∈ pre, q.2.score < r.2.score) ∧
        (∀ q ∈ post, q.2.score ≤ r.2.score)) ∧
    ((train_models sampleLib [] []).2).map (fun r => r.2.score) =
      [1/2, 7/10, 7/10, 3/10] ∧
    (train_models sampleLib [] []).1 = some fitGB := by
  refine ⟨?_, ?_, ?_⟩
  · intro lib X y
    have hne : (train_models lib X y).2 ≠ [] := by
      rw [train_models_results]
      simp [modelItems]
    obtain ⟨pre, r, post, heq, hmax, hpre, hpost⟩ :=
      pyMax_spec (fun q => q.2.score) ((train_models lib X y).2) hne
    refine ⟨pre, r, post, heq, ?_, hpre, hpost⟩
    rw [train_models_best]
    show (pyMaxItems ((train_models lib X y).2)).map (fun q => q.2.fitted) = _
    rw [pyMaxItems, hmax]
    rfl
  · rw [train_models_results]
    rfl
  · rw [train_models_best, train_models_results]
    norm_num [pyMaxItems, pyMax, pyStep, modelItems, mkEntry, sampleLib,
      fitRF, fitGB, fitXGB, fitNN]

/-- Claim C6: within one `train_models` call the 80/20 split (seed 42) is
drawn exactly once before the candidate loop: every one of the four
candidate results is built from that single split, so all four record the
identical held-out `y_test`. -/
theorem claim_C6 (lib : SkLib) (X : List (List ℚ)) (y : List ℚ) :
    (train_models lib X y).2 =
      (modelItems lib).map (mkEntry (lib.train_test_split X y (1/5) 42)) ∧
    ((train_models lib X y).2).map (fun r => r.2.y_test) =
      List.replicate 4 (lib.train_test_split X y (1/5) 42).yTest := by
  refine ⟨train_models_results lib X y, ?_⟩
  rw [train_models_results]
  rfl

/-- Claim C10: the candidate whose predictions-vs-actuals series `main`
charts (Python `max` over the results dict by score, then dict lookup of
the winning key) is the very entry whose fitted model `train_models`
returned as best: the two first-argmax computations agree on every run. -/
theorem claim_C10 (lib : SkLib) (X : List (List ℚ)) (y : List ℚ) :
    ∃ r, r ∈ (train_models lib X y).2 ∧
      chartedResult ((train_models lib X y).2) = some r ∧
      (train_models lib X y).1 = some r.2.fitted := by
  have hne : (train_models lib X y).2 ≠ [] := by
    rw [train_models_results]
    simp [modelItems]
  obtain ⟨pre, r, post, heq, hmax, _, _⟩ :=
    pyMax_spec (fun q => q.2.score) ((train_models lib X y).2) hne
  have hmem : r ∈ (train_models lib X y).2 := by
    rw [heq]
    exact List.mem_append.mpr (.inr (List.mem_cons_self _ _))
  have hnodup : (((train_models lib X y).2).map Prod.fst).Nodup := by
    rw [train_models_results]
    have : ((modelItems lib).map (mkEntry (lib.train_test_split X y (1/5) 42))).map
        Prod.fst = ["Random Forest", "Gradient Boosting", "XGBoost", "Neural Network"] := rfl
    rw [this]
    decide
  refine ⟨r, hmem, ?_, ?_⟩
  · rw [chartedResult]
    show (match pyMaxItems ((train_models lib X y).2) with
      | none => none
      | some m => ((train_models lib X y).2).find? (fun q => q.1 == m.1)) = some r
    rw [pyMaxItems, hmax]
    exact find?_name_nodup _ r hnodup hmem
  · rw [train_models_best, pyMaxItems, hmax]
    rfl

end NBA

